import Mathlib

/-!
Verification of the document-model / edit / undo / validation core of the
brpaz/openapi-editor repository, shallowly embedded in Lean 4.

Source files embedded here:
  * src/types/editor.ts        (path addressing, parse outcome types)
  * src/lib/yaml-engine.ts     (parse / stringify / edit wrappers)
  * src/lib/validator.ts       (validation pipeline)
  * src/store/spec-store.ts    (edit coordinator and undo history wiring)

The external npm libraries the source delegates to (eemeli yaml, zundo,
SwaggerParser) are not part of the repository snapshot; where their behaviour
decides a claim they are modelled from the specification and the repository
documentation, and each such definition is marked with a doc comment starting
with "Modelled from the spec:".
-/

namespace OpenapiEditor

/-! ## Path addressing — src/types/editor.ts, pathToPointer / pointerToPath -/

/-- JS global replace of the single character `~` by the two characters `~0`
(`segment.replace(/~/g, "~0")` inside `pathToPointer`). -/
def escTilde : List Char → List Char
  | [] => []
  | c :: cs => if c = '~' then '~' :: '0' :: escTilde cs else c :: escTilde cs

/-- JS global replace of the single character `/` by the two characters `~1`
(`segment.replace(/\//g, "~1")` inside `pathToPointer`). -/
def escSlash : List Char → List Char
  | [] => []
  | c :: cs => if c = '/' then '~' :: '1' :: escSlash cs else c :: escSlash cs

/-- JS left-to-right global replace of the two-character pattern `~1` by `/`
(`segment.replace(/~1/g, "/")` inside `pointerToPath`). -/
def unescSlash : List Char → List Char
  | [] => []
  | [c] => [c]
  | c :: d :: cs =>
    if c = '~' ∧ d = '1' then '/' :: unescSlash cs
    else c :: unescSlash (d :: cs)

/-- JS left-to-right global replace of the two-character pattern `~0` by `~`
(`segment.replace(/~0/g, "~")` inside `pointerToPath`). -/
def unescTilde : List Char → List Char
  | [] => []
  | [c] => [c]
  | c :: d :: cs =>
    if c = '~' ∧ d = '0' then '~' :: unescTilde cs
    else c :: unescTilde (d :: cs)

/-- JS `Array.prototype.join` with separator `/`. -/
def joinSlash : List (List Char) → List Char
  | [] => []
  | [s] => s
  | s :: ss => s ++ '/' :: joinSlash ss

/-- Prepend a character to the first field of a split result. -/
def consHead (c : Char) : List (List Char) → List (List Char)
  | [] => [[c]]
  | s :: ss => (c :: s) :: ss

/-- JS `String.prototype.split` on `/`; the empty string splits to one empty field. -/
def splitSlash : List Char → List (List Char)
  | [] => [[]]
  | c :: cs =>
    if c = '/' then [] :: splitSlash cs
    else consHead c (splitSlash cs)

/-- RFC 6901 JSON Pointer encoding from src/types/editor.ts: the empty path maps
to the empty string, otherwise each segment is escaped (`~` to `~0`, then `/` to
`~1`), the segments are joined with `/` and the result is prefixed with `/`. -/
def pathToPointer (path : List String) : String :=
  if path.length = 0 then ""
  else String.mk ('/' :: joinSlash (path.map fun segment => escSlash (escTilde segment.toList)))

/-- RFC 6901 JSON Pointer decoding from src/types/editor.ts: the empty string
maps to the empty path, otherwise drop the leading character, split on `/`, and
decode each segment (`~1` to `/` first, then `~0` to `~`). -/
def pointerToPath (pointer : String) : List String :=
  if pointer = "" then []
  else (splitSlash (pointer.toList.drop 1)).map
    fun segment => String.mk (unescTilde (unescSlash segment))

theorem unescSlash_cons_of_ne (c : Char) (hc : c ≠ '~') (cs : List Char) :
    unescSlash (c :: cs) = c :: unescSlash cs := by
  cases cs with
  | nil => rfl
  | cons d ds =>
    simp only [unescSlash]
    rw [if_neg]
    intro h
    exact hc h.1

theorem unescTilde_cons_of_ne (c : Char) (hc : c ≠ '~') (cs : List Char) :
    unescTilde (c :: cs) = c :: unescTilde cs := by
  cases cs with
  | nil => rfl
  | cons d ds =>
    simp only [unescTilde]
    rw [if_neg]
    intro h
    exact hc h.1

theorem unescTilde_tilde_zero (cs : List Char) :
    unescTilde ('~' :: '0' :: cs) = '~' :: unescTilde cs := by
  simp [unescTilde]

theorem unescSlash_tilde_one (cs : List Char) :
    unescSlash ('~' :: '1' :: cs) = '/' :: unescSlash cs := by
  simp [unescSlash]

theorem unescSlash_tilde_zero (cs : List Char) :
    unescSlash ('~' :: '0' :: cs) = '~' :: unescSlash ('0' :: cs) := by
  simp [unescSlash]

theorem unescTilde_escTilde (s : List Char) : unescTilde (escTilde s) = s := by
  induction s with
  | nil => rfl
  | cons c cs ih =>
    by_cases hc : c = '~'
    · subst hc
      rw [show escTilde ('~' :: cs) = '~' :: '0' :: escTilde cs by simp [escTilde]]
      rw [unescTilde_tilde_zero, ih]
    · rw [show escTilde (c :: cs) = c :: escTilde cs by simp [escTilde, hc]]
      rw [unescTilde_cons_of_ne c hc, ih]

theorem unescSlash_escSlash_escTilde (s : List Char) :
    unescSlash (escSlash (escTilde s)) = escTilde s := by
  induction s with
  | nil => rfl
  | cons c cs ih =>
    by_cases hc : c = '~'
    · subst hc
      rw [show escTilde ('~' :: cs) = '~' :: '0' :: escTilde cs by simp [escTilde]]
      rw [show escSlash ('~' :: '0' :: escTilde cs) = '~' :: '0' :: escSlash (escTilde cs) by
        simp [escSlash]]
      rw [unescSlash_tilde_zero, unescSlash_cons_of_ne '0' (by decide), ih]
    · by_cases hs : c = '/'
      · subst hs
        rw [show escTilde ('/' :: cs) = '/' :: escTilde cs by simp [escTilde]]
        rw [show escSlash ('/' :: escTilde cs) = '~' :: '1' :: escSlash (escTilde cs) by
          simp [escSlash]]
        rw [unescSlash_tilde_one, ih]
      · rw [show escTilde (c :: cs) = c :: escTilde cs by simp [escTilde, hc]]
        rw [show escSlash (c :: escTilde cs) = c :: escSlash (escTilde cs) by
          simp [escSlash, hs]]
        rw [unescSlash_cons_of_ne c hc, ih]

theorem slash_not_mem_escSlash (s : List Char) : '/' ∉ escSlash s := by
  induction s with
  | nil => simp [escSlash]
  | cons c cs ih =>
    by_cases hs : c = '/'
    · subst hs
      rw [show escSlash ('/' :: cs) = '~' :: '1' :: escSlash cs by simp [escSlash]]
      simp only [List.mem_cons]
      push_neg
      exact ⟨by decide, by decide, ih⟩
    · rw [show escSlash (c :: cs) = c :: escSlash cs by simp [escSlash, hs]]
      simp only [List.mem_cons]
      push_neg
      exact ⟨fun h => hs h.symm, ih⟩

theorem splitSlash_of_no_slash (s : List Char) (hs : '/' ∉ s) : splitSlash s = [s] := by
  induction s with
  | nil => rfl
  | cons c cs ih =>
    have hc : c ≠ '/' := fun h => hs (h ▸ List.mem_cons_self c cs)
    have hcs : '/' ∉ cs := fun h => hs (List.mem_cons_of_mem c h)
    rw [show splitSlash (c :: cs) = consHead c (splitSlash cs) by simp [splitSlash, hc]]
    rw [ih hcs]
    rfl

theorem splitSlash_append (s t : List Char) (hs : '/' ∉ s) :
    splitSlash (s ++ '/' :: t) = s :: splitSlash t := by
  induction s with
  | nil =>
    show splitSlash ('/' :: t) = [] :: splitSlash t
    simp [splitSlash]
  | cons c cs ih =>
    have hc : c ≠ '/' := fun h => hs (h ▸ List.mem_cons_self c cs)
    have hcs : '/' ∉ cs := fun h => hs (List.mem_cons_of_mem c h)
    show splitSlash (c :: (cs ++ '/' :: t)) = (c :: cs) :: splitSlash t
    rw [show splitSlash (c :: (cs ++ '/' :: t)) = consHead c (splitSlash (cs ++ '/' :: t)) by
      simp [splitSlash, hc]]
    rw [ih hcs]
    rfl

theorem splitSlash_joinSlash (ss : List (List Char)) (hne : ss ≠ [])
    (hs : ∀ s ∈ ss, '/' ∉ s) : splitSlash (joinSlash ss) = ss := by
  induction ss with
  | nil => exact absurd rfl hne
  | cons s rest ih =>
    cases rest with
    | nil =>
      rw [show joinSlash [s] = s from rfl]
      exact splitSlash_of_no_slash s (hs s (List.mem_cons_self s []))
    | cons s' rest' =>
      rw [show joinSlash (s :: s' :: rest') = s ++ '/' :: joinSlash (s' :: rest') from rfl]
      rw [splitSlash_append s _ (hs s (List.mem_cons_self s _))]
      rw [ih (by simp) (fun x hx => hs x (List.mem_cons_of_mem s hx))]

theorem string_mk_toList (s : String) : String.mk s.toList = s := rfl

/-- Claim C2: for every path, including segments containing `~`, `/`, or both in
one segment, decoding the encoded pointer gives back the path segment-wise; the
empty path maps to the empty string and back. -/
theorem claim_C2_path_pointer_roundtrip (p : List String) :
    pointerToPath (pathToPointer p) = p := by
  cases p with
  | nil => simp [pathToPointer, pointerToPath]
  | cons q qs =>
    rw [pathToPointer, if_neg (by simp)]
    rw [pointerToPath, if_neg (by
      intro h
      exact absurd (congrArg String.data h) (by simp [String.mk]))]
    have hdrop :
        (String.mk ('/' :: joinSlash ((q :: qs).map
          fun segment => escSlash (escTilde segment.toList)))).toList.drop 1
        = joinSlash ((q :: qs).map fun segment => escSlash (escTilde segment.toList)) := rfl
    rw [hdrop]
    rw [splitSlash_joinSlash _ (by simp) (by
      intro s hs
      simp only [List.mem_map] at hs
      obtain ⟨a, _, ha⟩ := hs
      rw [← ha]
      exact slash_not_mem_escSlash _)]
    rw [List.map_map]
    have : ∀ a : String,
        (fun segment => String.mk (unescTilde (unescSlash segment)))
          ((fun segment => escSlash (escTilde segment.toList)) a) = a := by
      intro a
      simp only [unescSlash_escSlash_escTilde, unescTilde_escTilde]
      exact string_mk_toList a
    calc ((q :: qs).map fun a =>
            (fun segment => String.mk (unescTilde (unescSlash segment)))
              ((fun segment => escSlash (escTilde segment.toList)) a))
        = (q :: qs).map id := List.map_congr_left (fun a _ => this a)
      _ = q :: qs := List.map_id _
/-! ## Plain value trees — the projection produced by Document.toJSON -/

/-- A plain, acyclic value tree: maps, ordered sequences, scalars. This is the
projection type of the data model (the result of `document.toJSON()`). -/
inductive JsonValue where
  | null : JsonValue
  | bool (b : Bool) : JsonValue
  | num (n : Int) : JsonValue
  | str (s : String) : JsonValue
  | arr (items : List JsonValue) : JsonValue
  | obj (entries : List (String × JsonValue)) : JsonValue

/-- JS truthiness of a toJSON value: null, false, 0 and the empty string are
falsy; every object and every array (empty or not) is truthy. -/
def jsTruthy : JsonValue → Bool
  | .null => false
  | .bool b => b
  | .num n => decide (n ≠ 0)
  | .str s => decide (s ≠ "")
  | .arr _ => true
  | .obj _ => true

/-- JS `typeof v` being the string "object" for a toJSON value: true for null,
arrays and objects, false for every scalar. -/
def jsTypeofObject : JsonValue → Bool
  | .null => true
  | .arr _ => true
  | .obj _ => true
  | _ => false

/-- JS property lookup on a toJSON value; absent keys and non-object receivers
give undefined, modelled as none. -/
def JsonValue.lookup : JsonValue → String → Option JsonValue
  | .obj entries, key => entries.lookup key
  | _, _ => none

/-- JS String conversion for scalar toJSON values; containers inside an array
stringification are simplified (never exercised by the claims). -/
def jsScalarString : JsonValue → String
  | .null => "null"
  | .bool true => "true"
  | .bool false => "false"
  | .num n => toString n
  | .str s => s
  | .arr _ => ""
  | .obj _ => "[object Object]"

/-- JS String conversion of a toJSON value. -/
def jsToString : JsonValue → String
  | .arr items => String.intercalate "," (items.map jsScalarString)
  | v => jsScalarString v

/-! ## The document model — Modelled from the spec

The source delegates parsing and serialization to the external eemeli yaml
library, which is not part of the repository snapshot. Per the spec, parsing
retains source formatting metadata sufficient to reproduce untouched regions
byte-for-byte on serialization; the model retains the source text itself at
document granularity, dropped as soon as a structural edit touches the
document. The parser below works on character lists so that every definition
evaluates by kernel reduction. -/

/-- Modelled from the spec: the annotated document produced by the external
parseDocument of the yaml library. `value` is the plain value tree exposed by
toJSON, `errors` the parser diagnostics, `src` the retained source text,
present exactly while the document is structurally untouched since parse. -/
structure YamlDocument where
  value : JsonValue
  errors : List String
  src : Option String

/-- The opening curly brace character. -/
def lbrace : Char := Char.ofNat 123

/-- The closing curly brace character. -/
def rbrace : Char := Char.ofNat 125

/-- Splits a character list on a separator character; the empty list splits to
one empty field. -/
def splitCh (c : Char) : List Char → List (List Char)
  | [] => [[]]
  | d :: ds =>
    if d == c then [] :: splitCh c ds
    else
      match splitCh c ds with
      | [] => [[d]]
      | s :: ss => (d :: s) :: ss

/-- Removes leading and trailing spaces of a line. -/
def trimCh (l : List Char) : List Char :=
  ((l.dropWhile (fun c => c == ' ')).reverse.dropWhile (fun c => c == ' ')).reverse

/-- Splits a line at the first occurrence of a character: the part before it
and the part after it (the whole line and nothing when it does not occur). -/
def splitFirst (c : Char) : List Char → List Char × List Char
  | [] => ([], [])
  | d :: ds =>
    if d == c then ([], ds)
    else
      let r := splitFirst c ds
      (d :: r.1, r.2)

/-- Reads a digit run as a natural number. -/
def digitsToNat : List Char → Nat → Nat
  | [], acc => acc
  | c :: cs, acc => digitsToNat cs (acc * 10 + (c.toNat - 48))

/-- Length of the leading run of spaces of a line. -/
def countIndent (l : List Char) : Nat := (l.takeWhile (fun c => c == ' ')).length

/-- Content lines of the source text: blank lines and comment-only lines are
not content; each content line is kept as its indent plus its trimmed text. -/
def toEntries (content : String) : List (Nat × List Char) :=
  ((splitCh '\n' content.toList).filter
      (fun l => !(trimCh l == [] || (trimCh l).headD ' ' == '#'))).map
    (fun l => (countIndent l, trimCh l))

/-- Modelled from the spec: plain-scalar interpretation of the modelled parser,
covering the scalar forms exercised in this development. -/
def parseScalar (t : List Char) : JsonValue :=
  if t = [] ∨ t = "null".toList ∨ t = ['~'] then .null
  else if t = "true".toList then .bool true
  else if t = "false".toList then .bool false
  else if t = [lbrace, rbrace] then .obj []
  else if t = ['[', ']'] then .arr []
  else if t.all (fun c => c.isDigit) then .num (digitsToNat t 0)
  else .str (String.mk t)

/-- A trimmed scalar text opening a flow collection the modelled parser does
not support; such text is reported as a parse diagnostic. -/
def flowBad (t : List Char) : Bool :=
  (t.headD ' ' == lbrace && !(t == [lbrace, rbrace]))
    || (t.headD ' ' == '[' && !(t == ['[', ']']))

/-- The three productions of the modelled block parser. -/
inductive PMode where
  | block : PMode
  | seqItems : PMode
  | mapEntries : PMode

/-- Modelled from the spec: the block parser of the modelled source format, a
single fuel-indexed step function. In block mode it dispatches on the first
line; in seqItems mode it collects `- item` lines of one block sequence; in
mapEntries mode it collects `key: value` / `key:` lines of one block map, with
nested blocks at deeper indents. Returns the parsed value, the diagnostics,
and the unconsumed lines. -/
def parseStep (fuel : Nat) (mode : PMode) (ind : Nat) (ls : List (Nat × List Char)) :
    JsonValue × List String × List (Nat × List Char) :=
  match fuel with
  | 0 => (.null, ["parser fuel exhausted"], ls)
  | fuel' + 1 =>
    match mode with
    | .block =>
      match ls with
      | [] => (.null, [], [])
      | (i, s) :: _ =>
        if i < ind then (.null, [], ls)
        else if s.headD ' ' == '-' then parseStep fuel' .seqItems i ls
        else if s.contains ':' then parseStep fuel' .mapEntries i ls
        else
          match ls with
          | [(_, t)] =>
            if flowBad t then (.null, ["Invalid YAML: " ++ String.mk t], [])
            else (parseScalar t, [], [])
          | _ => (.null, ["Invalid YAML document structure"], [])
    | .seqItems =>
      match ls with
      | [] => (.arr [], [], [])
      | (i, s) :: rest =>
        if i == ind && s.headD ' ' == '-' then
          let itemText := trimCh (s.drop 1)
          let item := parseScalar itemText
          let errs := if flowBad itemText then ["Invalid YAML: " ++ String.mk itemText] else []
          let r := parseStep fuel' .seqItems ind rest
          match r.1 with
          | .arr items => (.arr (item :: items), errs ++ r.2.1, r.2.2)
          | _ => (.arr [item], errs ++ r.2.1, r.2.2)
        else (.arr [], [], ls)
    | .mapEntries =>
      match ls with
      | [] => (.obj [], [], [])
      | (i, s) :: rest =>
        if i < ind then (.obj [], [], ls)
        else if i > ind then
          let r := parseStep fuel' .mapEntries ind rest
          (r.1, ("Invalid YAML: bad indent: " ++ String.mk s) :: r.2.1, r.2.2)
        else if !(s.contains ':') then
          let r := parseStep fuel' .mapEntries ind rest
          (r.1, ("Invalid YAML: expected a key: " ++ String.mk s) :: r.2.1, r.2.2)
        else
          let parts := splitFirst ':' s
          let key := String.mk (trimCh parts.1)
          let rv := trimCh parts.2
          if rv ≠ [] then
            let entryVal := parseScalar rv
            let errs := if flowBad rv then ["Invalid YAML: " ++ String.mk rv] else []
            let r := parseStep fuel' .mapEntries ind rest
            match r.1 with
            | .obj es => (.obj ((key, entryVal) :: es), errs ++ r.2.1, r.2.2)
            | _ => (.obj [(key, entryVal)], errs ++ r.2.1, r.2.2)
          else
            match rest with
            | [] => (.obj [(key, .null)], [], [])
            | (j, _) :: _ =>
              if j > ind then
                let rc := parseStep fuel' .block j rest
                let r := parseStep fuel' .mapEntries ind rc.2.2
                match r.1 with
                | .obj es => (.obj ((key, rc.1) :: es), rc.2.1 ++ r.2.1, r.2.2)
                | _ => (.obj [(key, rc.1)], rc.2.1 ++ r.2.1, r.2.2)
              else
                let r := parseStep fuel' .mapEntries ind rest
                match r.1 with
                | .obj es => (.obj ((key, .null) :: es), r.2.1, r.2.2)
                | _ => (.obj [(key, .null)], r.2.1, r.2.2)

/-- Modelled from the spec: the external parseDocument of the yaml library —
parse the text into a value tree plus diagnostics, retaining the source text
for serialization. An empty text parses to the null value. -/
def parseDocument (content : String) : YamlDocument :=
  match toEntries content with
  | [] => { value := .null, errors := [], src := some content }
  | (i, _) :: _ =>
    let entries := toEntries content
    let r := parseStep (3 * entries.length + 4) .block i entries
    { value := r.1,
      errors := r.2.1 ++ r.2.2.map (fun p => "Invalid YAML: trailing content: " ++ String.mk p.2),
      src := some content }

/-- Scalar rendering used by the canonical renderer. -/
def scalarRender : JsonValue → String
  | .null => "null"
  | .bool true => "true"
  | .bool false => "false"
  | .num n => toString n
  | .str s => s
  | .arr _ => ""
  | .obj _ => ""

/-- A run of spaces. -/
def pad (n : Nat) : String := String.mk (List.replicate n ' ')

/-- Modelled from the spec: canonical block renderer for the entries of a map,
two-space indent. Only edited documents are rendered; no claim inspects
rendered output. -/
def renderEntriesF (ind : Nat) (es : List (String × JsonValue)) : List String :=
  match es with
  | [] => []
  | (k, v) :: rest =>
    (match v with
      | .obj [] => [pad ind ++ k ++ ": " ++ String.mk [lbrace, rbrace]]
      | .arr [] => [pad ind ++ k ++ ": []"]
      | .obj es' => (pad ind ++ k ++ ":") :: renderEntriesF (ind + 2) es'
      | .arr items =>
        (pad ind ++ k ++ ":") :: items.map (fun it => pad (ind + 2) ++ "- " ++ scalarRender it)
      | w => [pad ind ++ k ++ ": " ++ scalarRender w])
    ++ renderEntriesF ind rest
termination_by sizeOf es
decreasing_by
  all_goals simp_wf
  all_goals omega

/-- Modelled from the spec: canonical line renderer used by serialize for
edited documents. -/
def renderLines (v : JsonValue) : List String :=
  match v with
  | .obj [] => [String.mk [lbrace, rbrace]]
  | .obj entries => renderEntriesF 0 entries
  | .arr [] => ["[]"]
  | .arr items => items.map (fun it => "- " ++ scalarRender it)
  | w => [scalarRender w]

/-- Modelled from the spec: Document.toString of the yaml library — reproduces
the retained source for structurally untouched documents byte-for-byte, and
renders edited documents deterministically. -/
def docToString (d : YamlDocument) : String :=
  match d.src with
  | some s => s
  | none => String.intercalate "\n" (renderLines d.value) ++ "\n"

/-- Modelled from the spec: Document.toJSON — the total conversion of a
document to its plain value tree. -/
def docToJSON (d : YamlDocument) : JsonValue := d.value

/-- ParseOutcome from src/types/editor.ts: either ok with a result holding the
plain spec and the document, or a failure with an error string. -/
inductive ParseOutcome where
  | ok (spec : JsonValue) (document : YamlDocument) : ParseOutcome
  | fail (error : String) : ParseOutcome

/-- The ok discriminant of a ParseOutcome. -/
def ParseOutcome.isOk : ParseOutcome → Bool
  | .ok _ _ => true
  | .fail _ => false

/-- parseYaml from src/lib/yaml-engine.ts: parse the content; fail when the
parser reports diagnostics, joined by newlines, or when the parsed root is
falsy or not of JS type object; otherwise return the plain spec together with
the document. The source wraps the parse in try/catch, so it never throws; the
local bindings of the source are inlined here. -/
def parseYaml (content : String) : ParseOutcome :=
  if (parseDocument content).errors.length > 0 then
    .fail (String.intercalate "\n" (parseDocument content).errors)
  else if !jsTruthy (docToJSON (parseDocument content))
      || !jsTypeofObject (docToJSON (parseDocument content)) then
    .fail "YAML did not parse to an object"
  else .ok (docToJSON (parseDocument content)) (parseDocument content)

/-! ## Edits on value trees — setIn / deleteIn / getIn, modelled from the spec -/

/-- Updates the first entry with the given key by the transformer, or appends
the default value under that key when the key is absent. -/
def updateFirst (entries : List (String × JsonValue)) (k : String)
    (f : JsonValue → JsonValue) (dflt : JsonValue) : List (String × JsonValue) :=
  match entries with
  | [] => [(k, dflt)]
  | (k', v') :: es => if k' = k then (k', f v') :: es else (k', v') :: updateFirst es k f dflt

/-- Modelled from the spec: Document.setIn semantics on the value tree —
creates intermediate containers as needed and overwrites the node at the leaf.
A non-map intermediate is replaced by a fresh map (not exercised by claims). -/
def setInValue (path : List String) (v : JsonValue) : JsonValue → JsonValue :=
  match path with
  | [] => fun _ => v
  | k :: rest => fun val =>
    match val with
    | .obj entries => .obj (updateFirst entries k (setInValue rest v) (setInValue rest v .null))
    | _ => .obj [(k, setInValue rest v .null)]

/-- Removes the first entry with the given key; reports whether a removal
happened. -/
def removeKey (entries : List (String × JsonValue)) (k : String) :
    List (String × JsonValue) × Bool :=
  match entries with
  | [] => ([], false)
  | (k', v') :: es =>
    if k' = k then (es, true)
    else
      let r := removeKey es k
      ((k', v') :: r.1, r.2)

/-- Applies the transformer to the first entry with the given key; an absent
key reports false and leaves the entries unchanged. -/
def deleteEntryGo (entries : List (String × JsonValue)) (k : String)
    (f : JsonValue → JsonValue × Bool) : List (String × JsonValue) × Bool :=
  match entries with
  | [] => ([], false)
  | (k', v') :: es =>
    if k' = k then
      let r := f v'
      ((k', r.1) :: es, r.2)
    else
      let r := deleteEntryGo es k f
      ((k', v') :: r.1, r.2)

/-- Modelled from the spec: Document.deleteIn semantics on the value tree —
removes the addressed node and reports true, or reports false without change
when the path does not resolve. -/
def deleteInValue (path : List String) : JsonValue → JsonValue × Bool :=
  match path with
  | [] => fun val =>
    (match val with
      | .null => (.null, false)
      | _ => (.null, true))
  | [k] => fun val =>
    match val with
    | .obj entries =>
      let r := removeKey entries k
      ((if r.2 then .obj r.1 else .obj entries), r.2)
    | v => (v, false)
  | k :: rest => fun val =>
    match val with
    | .obj entries =>
      let r := deleteEntryGo entries k (deleteInValue rest)
      ((if r.2 then .obj r.1 else .obj entries), r.2)
    | v => (v, false)

/-- Modelled from the spec: Document.getIn on the value tree — returns the
value at the path, or none when the path does not resolve; never throws. -/
def getInValue (val : JsonValue) (path : List String) : Option JsonValue :=
  match path with
  | [] => some val
  | k :: rest =>
    match val with
    | .obj entries =>
      match entries.lookup k with
      | some v' => getInValue v' rest
      | none => none
    | _ => none

/-- applyEdit from src/lib/yaml-engine.ts: document.setIn(path, value). The
structural edit invalidates the retained source at document granularity. -/
def applyEdit (document : YamlDocument) (path : List String) (value : JsonValue) :
    YamlDocument :=
  { document with value := setInValue path value document.value, src := none }

/-- addToMap from src/lib/yaml-engine.ts: document.setIn(path ++ [key], value). -/
def addToMap (document : YamlDocument) (path : List String) (key : String)
    (value : JsonValue) : YamlDocument :=
  { document with value := setInValue (path ++ [key]) value document.value, src := none }

/-- deleteAtPath from src/lib/yaml-engine.ts: document.deleteIn(path); returns
the document (mutated only when something was removed) and the removal flag. -/
def deleteAtPath (document : YamlDocument) (path : List String) : YamlDocument × Bool :=
  let r := deleteInValue path document.value
  if r.2 then ({ document with value := r.1, src := none }, true)
  else (document, false)

/-- getAtPath from src/lib/yaml-engine.ts: document.getIn(path, true); returns
undefined (none) for any missing path without throwing. -/
def getAtPath (document : YamlDocument) (path : List String) : Option JsonValue :=
  getInValue document.value path

/-- documentToSpec from src/lib/yaml-engine.ts: document.toJSON(). -/
def documentToSpec (document : YamlDocument) : JsonValue := docToJSON document

/-- stringifyYaml from src/lib/yaml-engine.ts: document.toString(). -/
def stringifyYaml (document : YamlDocument) : String := docToString document

theorem parseDocument_src (content : String) : (parseDocument content).src = some content := by
  unfold parseDocument
  split <;> rfl

theorem stringifyYaml_parseDocument (content : String) :
    stringifyYaml (parseDocument content) = content := by
  unfold stringifyYaml docToString
  rw [parseDocument_src]

theorem parseYaml_ok_document (content : String) (spec : JsonValue) (document : YamlDocument)
    (h : parseYaml content = .ok spec document) : document = parseDocument content := by
  unfold parseYaml at h
  split at h
  · exact absurd h (by simp)
  · split at h
    · exact absurd h (by simp)
    · injection h with h1 h2
      exact h2.symm

/-- Claim C1: for every text accepted by parse and not subsequently edited,
serializing the parsed document reproduces the input exactly: stringifyYaml of
the document returned by parseYaml equals the input text byte-for-byte. -/
theorem claim_C1_parse_stringify_roundtrip (text : String) (spec : JsonValue)
    (document : YamlDocument) (h : parseYaml text = .ok spec document) :
    stringifyYaml document = text := by
  rw [parseYaml_ok_document text spec document h]
  exact stringifyYaml_parseDocument text

/-- A minimal valid specification text used as a concrete input. -/
def sampleText : String :=
  "openapi: 3.1.0\ninfo:\n  title: Test API\n  version: 1.0.0\npaths: \x7b\x7d\n"

/-- Witness for claim C1 at a concrete accepted text. -/
theorem claim_C1_parse_stringify_roundtrip_witness :
    stringifyYaml (parseDocument sampleText) = sampleText :=
  claim_C1_parse_stringify_roundtrip sampleText (docToJSON (parseDocument sampleText))
    (parseDocument sampleText) (by rfl)

/-- A sequence-root text: syntactically valid, but its root is not a keyed
container. -/
def seqRootText : String := "- a\n"

/-- Counterexample to claim C8 as stated: the claim requires parse to fail
whenever the parsed root is not a keyed container, but parseYaml accepts a
sequence root, because a JS array is truthy and of JS type object. -/
theorem claim_C8_counterexample : (parseYaml seqRootText).isOk = true := by rfl

/-- Claim C8 (amended): parseYaml never throws, and fails exactly when the
parser reports diagnostics or the parsed root value is falsy or not of JS type
object; in particular scalar and null roots are rejected, while sequence roots
and empty-map roots are accepted. -/
theorem claim_C8_parse_failure_characterization (content : String) :
    (parseYaml content).isOk = false ↔
      ((parseDocument content).errors ≠ [] ∨
        jsTruthy (docToJSON (parseDocument content)) = false ∨
        jsTypeofObject (docToJSON (parseDocument content)) = false) := by
  by_cases he : (parseDocument content).errors = []
  · by_cases ht : jsTruthy (docToJSON (parseDocument content)) = true
    · by_cases hob : jsTypeofObject (docToJSON (parseDocument content)) = true
      · simp [parseYaml, ParseOutcome.isOk, he, ht, hob]
      · simp only [Bool.not_eq_true] at hob
        simp [parseYaml, ParseOutcome.isOk, he, ht, hob]
    · simp only [Bool.not_eq_true] at ht
      simp [parseYaml, ParseOutcome.isOk, he, ht]
  · have hlen : 0 < (parseDocument content).errors.length := by
      cases hl : (parseDocument content).errors with
      | nil => exact absurd hl he
      | cons a as => simp
    simp [parseYaml, ParseOutcome.isOk, he, hlen]

/-! ## Validation pipeline — src/types/validation.ts and src/lib/validator.ts -/

/-- ValidationSeverity from src/types/validation.ts. -/
inductive ValidationSeverity where
  | error : ValidationSeverity
  | warning : ValidationSeverity
  | info : ValidationSeverity

/-- The per-severity totals of a ValidationResult. -/
structure SeverityCounts where
  error : Nat
  warning : Nat
  info : Nat

/-- ValidationError from src/types/validation.ts (the optional source
locations and rule id are not relevant to any claim). -/
structure ValidationError where
  message : String
  path : List String
  severity : ValidationSeverity

/-- ValidationResult from src/types/validation.ts. -/
structure ValidationResult where
  errors : List ValidationError
  counts : SeverityCounts

/-- emptyCounts from src/lib/validator.ts. -/
def emptyCounts : SeverityCounts := { error := 0, warning := 0, info := 0 }

/-- AjvDetail from src/lib/validator.ts: the shape of one entry of the details
array of a SwaggerParser failure. -/
structure AjvDetail where
  instancePath : Option String
  message : Option String

/-- Modelled from the spec: the failure thrown by the external SwaggerParser
validator — either an error object carrying an Ajv details array, or a plain
error carrying only a message. -/
inductive SwaggerErr where
  | withDetails (details : List AjvDetail) (message : String) : SwaggerErr
  | plain (message : String) : SwaggerErr

/-- The error list built from a SwaggerParser failure in src/lib/validator.ts:
one error per Ajv detail, its path decoded from the instance pointer by
pointerToPath; when no detail produces an error, a single error with the
failure message and the empty path. -/
def swaggerErrors : SwaggerErr → List ValidationError
  | .withDetails details msg =>
    let errs := details.map (fun d =>
      { message := d.message.getD "Validation error",
        path := pointerToPath (d.instancePath.getD ""),
        severity := .error : ValidationError })
    if errs.isEmpty then [{ message := msg, path := [], severity := .error }] else errs
  | .plain msg => [{ message := msg, path := [], severity := .error }]

/-- The counts loop of src/lib/validator.ts: starts from emptyCounts and
increments the bucket of each error. -/
def countBySeverity (errors : List ValidationError) : SeverityCounts :=
  errors.foldl (fun c e =>
    match e.severity with
    | .error => { c with error := c.error + 1 }
    | .warning => { c with warning := c.warning + 1 }
    | .info => { c with info := c.info + 1 }) emptyCounts

/-- validateSpec from src/lib/validator.ts, parameterized by the outcome of the
external SwaggerParser validator. The text is parsed with parseDocument; parser
diagnostics are each reported as a synthetic error with the empty path; a root
that is falsy or not of JS object type is reported as a single synthetic
error; otherwise the external validator runs and its failure is translated by
swaggerErrors. The source catches every exception, so the function is total
and never rejects. -/
def validateSpec (swagger : JsonValue → Except SwaggerErr Unit) (yamlString : String) :
    ValidationResult :=
  if (parseDocument yamlString).errors.length > 0 then
    { errors := (parseDocument yamlString).errors.map
        (fun e => { message := e, path := [], severity := .error }),
      counts := { error := (parseDocument yamlString).errors.length, warning := 0, info := 0 } }
  else if !jsTruthy (docToJSON (parseDocument yamlString))
      || !jsTypeofObject (docToJSON (parseDocument yamlString)) then
    { errors := [{ message := "YAML did not parse to an object", path := [], severity := .error }],
      counts := { error := 1, warning := 0, info := 0 } }
  else
    match swagger (docToJSON (parseDocument yamlString)) with
    | .ok _ => { errors := [], counts := emptyCounts }
    | .error err =>
      { errors := swaggerErrors err, counts := countBySeverity (swaggerErrors err) }

/-- A text whose parse produces two diagnostics (two unsupported flow openers). -/
def twoErrorText : String := "\x7b a: [\n\x7b b: [\n"

/-- Counterexample to claim C9 as stated: the claim requires exactly one
synthetic error for a text that fails to parse, but validateSpec reports one
synthetic error per parser diagnostic — on a two-diagnostic text it reports
two errors. -/
theorem claim_C9_counterexample :
    (parseDocument twoErrorText).errors.length = 2 ∧
      (validateSpec (fun _ => Except.ok ()) twoErrorText).errors.length = 2 := ⟨rfl, rfl⟩

/-- Claim C9 (amended): for every text that fails to parse inside the
validation pipeline and every behaviour of the external validator, validateSpec
resolves (it is total, never rejecting) with one synthetic error per parser
diagnostic — a single error when the failure is a non-object root — each with
the empty path and severity error, and counts consistent with the error list. -/
theorem claim_C9_parse_failure_synthetic_errors
    (swagger : JsonValue → Except SwaggerErr Unit) (yamlString : String)
    (h : (parseDocument yamlString).errors ≠ [] ∨
      jsTruthy (docToJSON (parseDocument yamlString)) = false ∨
      jsTypeofObject (docToJSON (parseDocument yamlString)) = false) :
    (∀ e ∈ (validateSpec swagger yamlString).errors,
        e.path = [] ∧ e.severity = ValidationSeverity.error) ∧
      (validateSpec swagger yamlString).errors.length
        = max 1 (parseDocument yamlString).errors.length ∧
      (validateSpec swagger yamlString).counts.error
        = (validateSpec swagger yamlString).errors.length ∧
      (validateSpec swagger yamlString).counts.warning = 0 ∧
      (validateSpec swagger yamlString).counts.info = 0 := by
  by_cases he : (parseDocument yamlString).errors = []
  · have hrest : jsTruthy (docToJSON (parseDocument yamlString)) = false ∨
        jsTypeofObject (docToJSON (parseDocument yamlString)) = false := by
      rcases h with h | h | h
      · exact absurd he h
      · exact Or.inl h
      · exact Or.inr h
    have hguard : (!jsTruthy (docToJSON (parseDocument yamlString))
        || !jsTypeofObject (docToJSON (parseDocument yamlString))) = true := by
      rcases hrest with h | h <;> simp [h]
    simp [validateSpec, he, hguard]
  · have hlen : 0 < (parseDocument yamlString).errors.length := by
      cases hl : (parseDocument yamlString).errors with
      | nil => exact absurd hl he
      | cons a as => simp
    have hmax : max 1 (parseDocument yamlString).errors.length
        = (parseDocument yamlString).errors.length := by omega
    refine ⟨?_, ?_, ?_, ?_, ?_⟩
    · intro e he2
      simp only [validateSpec, if_pos hlen] at he2
      simp only [List.mem_map] at he2
      obtain ⟨a, _, ha⟩ := he2
      rw [← ha]
      exact ⟨rfl, rfl⟩
    · simp [validateSpec, hlen, hmax]
    · simp [validateSpec, hlen]
    · simp [validateSpec, hlen]
    · simp [validateSpec, hlen]

/-- Witness for claim C9 at a concrete failing text and a concrete external
validator. -/
theorem claim_C9_parse_failure_synthetic_errors_witness :
    (validateSpec (fun _ => Except.ok ()) twoErrorText).counts.error
      = (validateSpec (fun _ => Except.ok ()) twoErrorText).errors.length :=
  (claim_C9_parse_failure_synthetic_errors (fun _ => Except.ok ()) twoErrorText
    (Or.inl (by decide))).2.2.1

/-! ## The edit coordinator — src/store/spec-store.ts -/

/-- Models a JS object reference for the projection: toJSON returns a fresh
object on every call, so the store tags each projection with the allocation
counter; JS reference identity on projections is identity of the tag. -/
structure SpecObjRef where
  id : Nat
  val : JsonValue

/-- SpecState from src/types/editor.ts. -/
structure SpecState where
  spec : Option SpecObjRef
  yamlDocument : Option YamlDocument
  filePath : Option String
  isDirty : Bool
  selectedPath : Option (List String)
  validation : ValidationResult

/-- UndoState from src/store/spec-store.ts: the fields tracked by the history. -/
structure UndoState where
  spec : Option SpecObjRef
  yamlDocument : Option YamlDocument
  isDirty : Bool

/-- The two stacks of the zundo temporal store. -/
structure TemporalState where
  pastStates : List UndoState
  futureStates : List UndoState

/-- The whole store: the coordinator state, the temporal stacks, the allocation
counter for projection references, and the text of the pending debounced
validation run (none when no run is scheduled). -/
structure Store where
  state : SpecState
  temporal : TemporalState
  nextId : Nat
  pendingValidation : Option String

/-- emptyValidation from src/store/spec-store.ts. -/
def emptyValidation : ValidationResult := { errors := [], counts := emptyCounts }

/-- initialState from src/store/spec-store.ts. -/
def initialState : SpecState :=
  { spec := none, yamlDocument := none, filePath := none, isDirty := false,
    selectedPath := none, validation := emptyValidation }

/-- partialize from src/store/spec-store.ts: the tracked subset of the state. -/
def partialize (state : SpecState) : UndoState :=
  { spec := state.spec, yamlDocument := state.yamlDocument, isDirty := state.isDirty }

/-- JS reference equality on the spec field: null equals only null, and two
projection objects are identical exactly when they are the same allocation. -/
def refEq : Option SpecObjRef → Option SpecObjRef → Bool
  | none, none => true
  | some a, some b => a.id == b.id
  | _, _ => false

/-- equality from src/store/spec-store.ts: the history change detection
compares only the spec projection, by reference. -/
def equality (pastState currentState : UndoState) : Bool :=
  refEq pastState.spec currentState.spec

/-- Modelled from the spec: the zundo temporal middleware around the store
set. It captures the partialized state before the update; when the equality
predicate does not accept the new partialized state, it pushes the captured
snapshot onto the past stack, clears the future stack, and evicts the oldest
entries beyond the configured limit. -/
def temporalSet (limit : Option Nat) (st : Store) (upd : SpecState → SpecState) : Store :=
  let oldPart := partialize st.state
  let newState := upd st.state
  if equality oldPart (partialize newState) then { st with state := newState }
  else
    let past := st.temporal.pastStates ++ [oldPart]
    let bounded :=
      (match limit with
        | none => past
        | some n => if past.length > n then past.drop (past.length - n) else past)
    { st with
      state := newState
      temporal := { pastStates := bounded, futureStates := [] } }

/-- The set of src/store/spec-store.ts: the temporal options configure
partialize and the reference equality on the spec, and pass no limit. -/
def specSet (st : Store) (upd : SpecState → SpecState) : Store :=
  temporalSet none st upd

/-- Modelled from the spec: zundo undo — pops the most recent past entry,
pushes the current partialized state onto the future stack, and restores the
popped snapshot into the tracked fields, leaving selection, file path and
validation untouched. Does nothing when the past stack is empty. -/
def undoStore (st : Store) : Store :=
  match st.temporal.pastStates.getLast? with
  | none => st
  | some prev =>
    { st with
      state := { st.state with
        spec := prev.spec, yamlDocument := prev.yamlDocument, isDirty := prev.isDirty },
      temporal := { pastStates := st.temporal.pastStates.dropLast,
                    futureStates := st.temporal.futureStates ++ [partialize st.state] } }

/-- cloneDocument from src/store/spec-store.ts round-trips the document through
serialize and parse of the external yaml library; per the spec clone-for-snapshot
contract this produces an independent copy with the same content and no shared
mutable structure. In the purely functional embedding a document value is its
own independent copy, so the clone is the identity on content. -/
def cloneDocument (doc : YamlDocument) : YamlDocument := doc

/-- triggerValidation from src/store/spec-store.ts: serializes the document and
schedules a debounced validation run on that text; the debounce keeps only the
latest scheduled text. The asynchronous firing of the timer is outside the
synchronous step relation. -/
def triggerValidation (st : Store) (doc : Option YamlDocument) : Store :=
  match doc with
  | none => st
  | some d => { st with pendingValidation := some (stringifyYaml d) }

/-- JS String.prototype.startsWith, on character lists so that it evaluates by
kernel reduction. -/
def strStartsWith (s pre : String) : Bool := pre.toList.isPrefixOf s.toList

/-- The version guard of openFile in src/store/spec-store.ts: the open fails
when the declared openapi field is absent or falsy, or its string form does
not start with 3.1. -/
def badVersion (spec : JsonValue) : Bool :=
  !(match spec.lookup "openapi" with
    | some v => jsTruthy v
    | none => false)
  || !(strStartsWith (jsToString ((spec.lookup "openapi").getD .null)) "3.1")

/-- The nullish-coalescing chain building the detected version string of the
openFile error message. -/
def detectedVersion (spec raw : JsonValue) : String :=
  match spec.lookup "openapi" with
  | some .null | none =>
    (match raw.lookup "swagger" with
      | some .null | none => "unknown"
      | some w => jsToString w)
  | some v => jsToString v

/-- openFile from src/store/spec-store.ts: parse the content; on parse failure
or on a version outside the 3.1 family, throw (returning the error second)
before any state change; otherwise set the loaded state — fresh projection
reference, the parsed document, the file path, clean, no selection, empty
validation — through the temporal middleware, and schedule validation. -/
def openFile (st : Store) (path : String) (content : String) : Store × Option String :=
  match parseYaml content with
  | .fail e => (st, some ("Failed to parse YAML: " ++ e))
  | .ok spec document =>
    if badVersion spec then
      (st, some ("Not a valid OpenAPI 3.1 specification. Detected version: "
        ++ detectedVersion spec (docToJSON document)))
    else
      let ref : SpecObjRef := { id := st.nextId, val := spec }
      let st1 := { st with nextId := st.nextId + 1 }
      let st2 := specSet st1 (fun s => { s with
        spec := some ref,
        yamlDocument := some document,
        filePath := some path,
        isDirty := false,
        selectedPath := none,
        validation := emptyValidation })
      (triggerValidation st2 (some document), none)

/-- Modelled from the spec: SPEC_TEMPLATE from src/lib/spec-template.ts, which
is absent from the snapshot — a fixed minimal valid document; the repository
tests pin its openapi version 3.1.0 and its title. -/
def SPEC_TEMPLATE : String :=
  "openapi: 3.1.0\ninfo:\n  title: My API\n  version: 1.0.0\npaths: \x7b\x7d\n"

/-- newSpec from src/store/spec-store.ts: load the fixed template with no file
identity; the same success path as openFile. -/
def newSpec (st : Store) : Store × Option String :=
  match parseYaml SPEC_TEMPLATE with
  | .fail e => (st, some ("Invalid spec template: " ++ e))
  | .ok spec document =>
    let ref : SpecObjRef := { id := st.nextId, val := spec }
    let st1 := { st with nextId := st.nextId + 1 }
    let st2 := specSet st1 (fun s => { s with
      spec := some ref,
      yamlDocument := some document,
      filePath := none,
      isDirty := false,
      selectedPath := none,
      validation := emptyValidation })
    (triggerValidation st2 (some document), none)

/-- save from src/store/spec-store.ts: a pure read returning the serialized
document, or null when no document is loaded. -/
def save (st : Store) : Option String :=
  match st.state.yamlDocument with
  | none => none
  | some d => some (stringifyYaml d)

/-- getYamlString from src/store/spec-store.ts: identical read to save. -/
def getYamlString (st : Store) : Option String :=
  match st.state.yamlDocument with
  | none => none
  | some d => some (stringifyYaml d)

/-- updateField from src/store/spec-store.ts: no-op when nothing is loaded;
otherwise clone the document, apply the edit, regenerate the projection as a
fresh reference, set dirty through the temporal middleware, and schedule
validation. -/
def updateField (st : Store) (path : List String) (value : JsonValue) : Store :=
  match st.state.spec, st.state.yamlDocument with
  | some _, some yamlDocument =>
    let newDoc := applyEdit (cloneDocument yamlDocument) path value
    let ref : SpecObjRef := { id := st.nextId, val := documentToSpec newDoc }
    let st1 := { st with nextId := st.nextId + 1 }
    let st2 := specSet st1 (fun s => { s with
      spec := some ref, yamlDocument := some newDoc, isDirty := true })
    triggerValidation st2 (some newDoc)
  | _, _ => st

/-- addElement from src/store/spec-store.ts: as updateField but through
addToMap. -/
def addElement (st : Store) (path : List String) (key : String) (value : JsonValue) :
    Store :=
  match st.state.spec, st.state.yamlDocument with
  | some _, some yamlDocument =>
    let newDoc := addToMap (cloneDocument yamlDocument) path key value
    let ref : SpecObjRef := { id := st.nextId, val := documentToSpec newDoc }
    let st1 := { st with nextId := st.nextId + 1 }
    let st2 := specSet st1 (fun s => { s with
      spec := some ref, yamlDocument := some newDoc, isDirty := true })
    triggerValidation st2 (some newDoc)
  | _, _ => st

/-- removeElement from src/store/spec-store.ts: as updateField but through
deleteAtPath; when the delete reports false the function returns before any
state change, so nothing at all happens. -/
def removeElement (st : Store) (path : List String) : Store :=
  match st.state.spec, st.state.yamlDocument with
  | some _, some yamlDocument =>
    let dr := deleteAtPath (cloneDocument yamlDocument) path
    if !dr.2 then st
    else
      let ref : SpecObjRef := { id := st.nextId, val := documentToSpec dr.1 }
      let st1 := { st with nextId := st.nextId + 1 }
      let st2 := specSet st1 (fun s => { s with
        spec := some ref, yamlDocument := some dr.1, isDirty := true })
      triggerValidation st2 (some dr.1)
  | _, _ => st

/-- setSelectedPath from src/store/spec-store.ts. -/
def setSelectedPath (st : Store) (path : Option (List String)) : Store :=
  specSet st (fun s => { s with selectedPath := path })

/-- setValidation from src/store/spec-store.ts. -/
def setValidation (st : Store) (result : ValidationResult) : Store :=
  specSet st (fun s => { s with validation := result })

/-- markClean from src/store/spec-store.ts. -/
def markClean (st : Store) : Store :=
  specSet st (fun s => { s with isDirty := false })

/-- reset from src/store/spec-store.ts. -/
def resetStore (st : Store) : Store :=
  specSet st (fun _ => initialState)

/-- The projection reference, when present, was allocated before the next free
id; every store reachable from the empty store satisfies this. -/
def wfStore (st : Store) : Bool :=
  match st.state.spec with
  | none => true
  | some s => decide (s.id < st.nextId)

/-! ## Claims about the edit coordinator -/

/-- The failure predicate of openFile, read off src/store/spec-store.ts lines
61 to 74: the text does not parse, or the parsed projection declares a version
outside the 3.1 family. -/
def openFileFails (content : String) : Bool :=
  match parseYaml content with
  | .fail _ => true
  | .ok spec _ => badVersion spec

/-- The empty store: initial coordinator state, empty history, no scheduled
validation. -/
def initialStore : Store :=
  { state := initialState, temporal := { pastStates := [], futureStates := [] },
    nextId := 0, pendingValidation := none }

/-- A concrete loaded document. -/
def loadedDoc : YamlDocument :=
  { value := .obj [("openapi", .str "3.1.0"), ("info", .obj [("title", .str "T")])],
    errors := [], src := some "openapi: 3.1.0\ninfo:\n  title: T\n" }

/-- A concrete loaded, well-formed store holding loadedDoc. -/
def loadedStore : Store :=
  { state := { spec := some { id := 0, val := loadedDoc.value },
               yamlDocument := some loadedDoc, filePath := some "a.yaml",
               isDirty := false, selectedPath := none, validation := emptyValidation },
    temporal := { pastStates := [], futureStates := [] },
    nextId := 1, pendingValidation := none }

/-- Claim C3: for every prior coordinator state and every input on which open
fails — text that does not parse, or a parsed document whose declared format
version is not in the supported 3.1 family — openFile reports the error
synchronously and every field of the coordinator state (spec, yamlDocument,
filePath, isDirty, selectedPath, validation), the history stacks and the
validation scheduling are exactly what they were before the call. -/
theorem claim_C3_open_failure_preserves_state (st : Store) (path content : String)
    (h : openFileFails content = true) :
    (openFile st path content).2.isSome = true ∧ (openFile st path content).1 = st := by
  unfold openFileFails at h
  cases hp : parseYaml content with
  | fail e =>
    simp [openFile, hp]
  | ok spec document =>
    rw [hp] at h
    simp only [] at h
    simp [openFile, hp, h]

/-- A text declaring a swagger 2.0 document, on which open fails. -/
def swaggerText : String := "swagger: 2.0\ninfo:\n  title: T\npaths: \x7b\x7d\n"

/-- Witness for claim C3 at a concrete failing input and a concrete store. -/
theorem claim_C3_open_failure_preserves_state_witness :
    (openFile initialStore "a.yaml" swaggerText).1 = initialStore :=
  (claim_C3_open_failure_preserves_state initialStore "a.yaml" swaggerText (by decide)).2

/-- Claim C4: for every loaded coordinator state and every path that does not
resolve in the document (deleteAtPath reports false), removeElement performs no
state change at all: the whole store — coordinator state, dirty flag, history
stacks, scheduled validation — is returned unchanged, and no error is raised
(removeElement is a total function). -/
theorem claim_C4_remove_missing_noop (st : Store) (path : List String)
    (s : SpecObjRef) (d : YamlDocument)
    (hs : st.state.spec = some s) (hd : st.state.yamlDocument = some d)
    (hdel : (deleteAtPath (cloneDocument d) path).2 = false) :
    removeElement st path = st := by
  unfold removeElement
  rw [hs, hd]
  simp [hdel]

/-- Witness for claim C4 at a concrete loaded store and a missing path. -/
theorem claim_C4_remove_missing_noop_witness :
    removeElement loadedStore ["servers"] = loadedStore :=
  claim_C4_remove_missing_noop loadedStore ["servers"]
    { id := 0, val := loadedDoc.value } loadedDoc rfl rfl (by decide)

/-- A single structural edit at the coordinator level. -/
inductive EditOp where
  | update (path : List String) (value : JsonValue) : EditOp
  | add (path : List String) (key : String) (value : JsonValue) : EditOp
  | remove (path : List String) : EditOp

/-- Dispatches a structural edit to the coordinator action embedding it. -/
def applyEditOp (st : Store) : EditOp → Store
  | .update path value => updateField st path value
  | .add path key value => addElement st path key value
  | .remove path => removeElement st path

/-- An edit is effective when it changes the document: updates and adds always
go through; a remove is effective when its delete resolves. -/
def effectiveOn (st : Store) : EditOp → Bool
  | .remove path =>
    (match st.state.yamlDocument with
      | some d => (deleteAtPath (cloneDocument d) path).2
      | none => false)
  | _ => true

theorem refEq_some_fresh (s : SpecObjRef) (n : Nat) (v : JsonValue) (h : s.id < n) :
    refEq (some s) (some { id := n, val := v }) = false := by
  show (s.id == n) = false
  exact beq_eq_false_iff_ne.mpr (Nat.ne_of_lt h)

theorem specSet_not_equal_push (st : Store) (upd : SpecState → SpecState)
    (h : equality (partialize st.state) (partialize (upd st.state)) = false) :
    specSet st upd = { st with
      state := upd st.state
      temporal := { pastStates := st.temporal.pastStates ++ [partialize st.state],
                    futureStates := [] } } := by
  unfold specSet temporalSet
  simp [h]

/-- All edit actions of the store follow the same shape: a set through the
temporal middleware writing a fresh projection reference, the new document and
the dirty flag, followed by validation scheduling. When the equality gate
rejects the fresh reference, the edited store is dirty, the pre-edit snapshot
is pushed, and one undo restores the pre-edit spec. -/
theorem push_set_fields (st : Store) (ref : SpecObjRef) (doc : YamlDocument)
    (h : refEq st.state.spec (some ref) = false) :
    (triggerValidation (specSet st (fun s => { s with
        spec := some ref, yamlDocument := some doc, isDirty := true })) (some doc)).state.isDirty
      = true ∧
    (triggerValidation (specSet st (fun s => { s with
        spec := some ref, yamlDocument := some doc, isDirty := true })) (some doc)).temporal.pastStates
      = st.temporal.pastStates ++ [partialize st.state] ∧
    (undoStore (triggerValidation (specSet st (fun s => { s with
        spec := some ref, yamlDocument := some doc, isDirty := true })) (some doc))).state.spec
      = st.state.spec := by
  have hne : equality (partialize st.state)
      (partialize ((fun s => { s with
        spec := some ref, yamlDocument := some doc, isDirty := true }) st.state)) = false := by
    simpa [equality, partialize] using h
  rw [specSet_not_equal_push st _ hne]
  refine ⟨rfl, rfl, ?_⟩
  unfold triggerValidation undoStore
  simp [List.getLast?_concat, partialize]

/-- Claim C5: for every loaded, well-formed coordinator state S and every
single effective edit E — updateField, addElement, or a removeElement whose
delete resolves — applied to S, calling undo afterwards restores the
projection: the spec after undo equals the spec of S (the same projection
reference, hence the same projection). -/
theorem claim_C5_undo_inverse (st : Store) (op : EditOp) (s : SpecObjRef)
    (d : YamlDocument) (hwf : wfStore st = true) (hs : st.state.spec = some s)
    (hd : st.state.yamlDocument = some d) (heff : effectiveOn st op = true) :
    (undoStore (applyEditOp st op)).state.spec = st.state.spec := by
  have hlt : s.id < st.nextId := by
    simpa [wfStore, hs] using hwf
  cases op with
  | update path value =>
    simp only [applyEditOp, updateField, hs, hd]
    rw [← hs]
    have href := refEq_some_fresh s st.nextId
      (documentToSpec (applyEdit (cloneDocument d) path value)) hlt
    exact (push_set_fields { st with nextId := st.nextId + 1 }
      { id := st.nextId, val := documentToSpec (applyEdit (cloneDocument d) path value) }
      (applyEdit (cloneDocument d) path value) (by simpa [hs] using href)).2.2
  | add path key value =>
    simp only [applyEditOp, addElement, hs, hd]
    rw [← hs]
    have href := refEq_some_fresh s st.nextId
      (documentToSpec (addToMap (cloneDocument d) path key value)) hlt
    exact (push_set_fields { st with nextId := st.nextId + 1 }
      { id := st.nextId, val := documentToSpec (addToMap (cloneDocument d) path key value) }
      (addToMap (cloneDocument d) path key value) (by simpa [hs] using href)).2.2
  | remove path =>
    have hdel : (deleteAtPath (cloneDocument d) path).2 = true := by
      simpa [effectiveOn, hd] using heff
    simp only [applyEditOp, removeElement, hs, hd, hdel]
    simp only [Bool.not_true, Bool.false_eq_true, if_false]
    rw [← hs]
    have href := refEq_some_fresh s st.nextId
      (documentToSpec (deleteAtPath (cloneDocument d) path).1) hlt
    exact (push_set_fields { st with nextId := st.nextId + 1 }
      { id := st.nextId, val := documentToSpec (deleteAtPath (cloneDocument d) path).1 }
      (deleteAtPath (cloneDocument d) path).1 (by simpa [hs] using href)).2.2

/-- Witness for claim C5 at a concrete loaded store and a concrete edit. -/
theorem claim_C5_undo_inverse_witness :
    (undoStore (applyEditOp loadedStore
        (EditOp.update ["info", "title"] (JsonValue.str "B")))).state.spec
      = loadedStore.state.spec :=
  claim_C5_undo_inverse loadedStore (EditOp.update ["info", "title"] (JsonValue.str "B"))
    { id := 0, val := loadedDoc.value } loadedDoc (by decide) rfl rfl (by decide)

/-- Claim C6, failing input: a successful openFile clears the selection and the
validation result and schedules validation, but does not clear the undo
history — no call to the temporal clear exists in the source; instead the
temporal middleware pushes the pre-open snapshot, so after opening a valid
file from the empty store the past stack holds one entry (and undo is
enabled), while the repository documentation (docs/features/undo-redo.md,
Clearing History) and the spec require both stacks to be emptied. -/
theorem claim_C6_open_does_not_clear_history :
    (openFile initialStore "a.yaml" sampleText).2 = none ∧
      (openFile initialStore "a.yaml" sampleText).1.temporal.pastStates.length = 1 ∧
      (openFile initialStore "a.yaml" sampleText).1.state.selectedPath = none ∧
      (openFile initialStore "a.yaml" sampleText).1.state.validation = emptyValidation ∧
      (openFile initialStore "a.yaml" sampleText).1.pendingValidation = some sampleText :=
  ⟨rfl, rfl, rfl, rfl, rfl⟩

/-- Iterated title edits, the n-th writing the number n. -/
def iterEdits : Nat → Store → Store
  | 0, st => st
  | n + 1, st => iterEdits n (updateField st ["info", "title"] (JsonValue.num n))

/-- Claim C7, failing input: the source passes no limit option to the temporal
middleware, so the past stack is unbounded — after 51 edits from a loaded
state it holds 51 entries, exceeding the documented bound of 50
(docs/features/undo-redo.md configures limit 50 and promises eviction of the
oldest entries). -/
theorem claim_C7_history_unbounded :
    (iterEdits 51 loadedStore).temporal.pastStates.length = 51 := by decide

/-- Claim C10: for every loaded, well-formed coordinator state, updateField and
addElement set the dirty flag and push a history entry even when the written
value is identical to the value already at that path: each edit regenerates
the projection as a fresh reference and the history change detection compares
projections by reference only, so a value-equal edit is never gated out. -/
theorem claim_C10_value_equal_edit_still_tracked (st : Store)
    (p1 : List String) (v1 : JsonValue) (p2 : List String) (key : String) (v2 : JsonValue)
    (s : SpecObjRef) (d : YamlDocument)
    (hwf : wfStore st = true) (hs : st.state.spec = some s)
    (hd : st.state.yamlDocument = some d)
    (h1 : getAtPath d p1 = some v1) (h2 : getAtPath d (p2 ++ [key]) = some v2) :
    ((updateField st p1 v1).state.isDirty = true ∧
      (updateField st p1 v1).temporal.pastStates
        = st.temporal.pastStates ++ [partialize st.state]) ∧
    ((addElement st p2 key v2).state.isDirty = true ∧
      (addElement st p2 key v2).temporal.pastStates
        = st.temporal.pastStates ++ [partialize st.state]) := by
  have hlt : s.id < st.nextId := by
    simpa [wfStore, hs] using hwf
  constructor
  · constructor
    · simp only [updateField, hs, hd]
      have href := refEq_some_fresh s st.nextId
        (documentToSpec (applyEdit (cloneDocument d) p1 v1)) hlt
      exact (push_set_fields { st with nextId := st.nextId + 1 }
        { id := st.nextId, val := documentToSpec (applyEdit (cloneDocument d) p1 v1) }
        (applyEdit (cloneDocument d) p1 v1) (by simpa [hs] using href)).1
    · simp only [updateField, hs, hd]
      have href := refEq_some_fresh s st.nextId
        (documentToSpec (applyEdit (cloneDocument d) p1 v1)) hlt
      exact (push_set_fields { st with nextId := st.nextId + 1 }
        { id := st.nextId, val := documentToSpec (applyEdit (cloneDocument d) p1 v1) }
        (applyEdit (cloneDocument d) p1 v1) (by simpa [hs] using href)).2.1
  · constructor
    · simp only [addElement, hs, hd]
      have href := refEq_some_fresh s st.nextId
        (documentToSpec (addToMap (cloneDocument d) p2 key v2)) hlt
      exact (push_set_fields { st with nextId := st.nextId + 1 }
        { id := st.nextId, val := documentToSpec (addToMap (cloneDocument d) p2 key v2) }
        (addToMap (cloneDocument d) p2 key v2) (by simpa [hs] using href)).1
    · simp only [addElement, hs, hd]
      have href := refEq_some_fresh s st.nextId
        (documentToSpec (addToMap (cloneDocument d) p2 key v2)) hlt
      exact (push_set_fields { st with nextId := st.nextId + 1 }
        { id := st.nextId, val := documentToSpec (addToMap (cloneDocument d) p2 key v2) }
        (addToMap (cloneDocument d) p2 key v2) (by simpa [hs] using href)).2.1

/-- Witness for claim C10 at a concrete loaded store, writing values already
present at the targeted paths. -/
theorem claim_C10_value_equal_edit_still_tracked_witness :
    (updateField loadedStore ["openapi"] (JsonValue.str "3.1.0")).state.isDirty = true :=
  (claim_C10_value_equal_edit_still_tracked loadedStore ["openapi"] (JsonValue.str "3.1.0")
    ["info"] "title" (JsonValue.str "T") { id := 0, val := loadedDoc.value } loadedDoc
    (by decide) rfl rfl rfl rfl).1.1

end OpenapiEditor
